import Mathlib

/-
Verification of the Task-Kit library: a shallow embedding of the task
state machine (src/task/state.rs), the polled task primitive and its
combinators (src/task/task.rs), and the work-stealing queue primitive
(src/runner/task_queue.rs), together with theorems settling the spec
claims about them.
-/

namespace TaskKit

/-- State of one task outcome, mirroring the five-variant enum
`State<T, E>` in src/task/state.rs. -/
inductive State (T E : Type) where
  | Pending : State T E
  | Resolve : T → State T E
  | Resolved : State T E
  | Reject : E → State T E
  | Rejected : State T E
deriving DecidableEq

namespace State

variable {T E U O : Type}

/-- Mirrors `State::is_pending`. -/
def is_pending : State T E → Bool
  | State.Pending => true
  | _ => false

/-- Mirrors `State::is_resolve`. -/
def is_resolve : State T E → Bool
  | State.Resolve _ => true
  | _ => false

/-- Mirrors `State::is_resolved`. -/
def is_resolved : State T E → Bool
  | State.Resolved => true
  | _ => false

/-- Mirrors `State::is_reject`. -/
def is_reject : State T E → Bool
  | State.Reject _ => true
  | _ => false

/-- Mirrors `State::is_rejected`. -/
def is_rejected : State T E → Bool
  | State.Rejected => true
  | _ => false

/-- Mirrors `State::resolve`: yields the payload iff the state is `Resolve`. -/
def resolve : State T E → Option T
  | State.Resolve r => some r
  | _ => none

/-- Mirrors `State::reject`: yields the error iff the state is `Reject`. -/
def reject : State T E → Option E
  | State.Reject e => some e
  | _ => none

/-- Mirrors `State::into_result`: `Resolve r` becomes `some (ok r)`,
`Reject e` becomes `some (error e)`, every other variant becomes `none`.
Rust `Result<T, E>` is rendered as `Except E T`. -/
def into_result : State T E → Option (Except E T)
  | State.Pending => none
  | State.Resolve r => some (Except.ok r)
  | State.Resolved => none
  | State.Reject e => some (Except.error e)
  | State.Rejected => none

/-- Mirrors `State::map`. -/
def map : State T E → (T → U) → State U E
  | State.Pending, _ => State.Pending
  | State.Resolve r, op => State.Resolve (op r)
  | State.Resolved, _ => State.Resolved
  | State.Reject e, _ => State.Reject e
  | State.Rejected, _ => State.Rejected

/-- Mirrors `State::map_err`. -/
def map_err : State T E → (E → O) → State T O
  | State.Pending, _ => State.Pending
  | State.Resolve r, _ => State.Resolve r
  | State.Resolved, _ => State.Resolved
  | State.Reject e, op => State.Reject (op e)
  | State.Rejected, _ => State.Rejected

/-- Mirrors `State::and`: returns `Reject e` if the receiver is `Reject e`,
otherwise returns the second argument. -/
def and : State T E → State U E → State U E
  | State.Reject e, _ => State.Reject e
  | _, res => res

/-- Mirrors `State::and_then`. -/
def and_then : State T E → (T → State U E) → State U E
  | State.Pending, _ => State.Pending
  | State.Resolve r, op => op r
  | State.Resolved, _ => State.Resolved
  | State.Reject e, _ => State.Reject e
  | State.Rejected, _ => State.Rejected

/-- Mirrors `State::or`: returns `Resolve r` if the receiver is `Resolve r`,
otherwise returns the second argument. -/
def or : State T E → State T O → State T O
  | State.Resolve r, _ => State.Resolve r
  | _, res => res

/-- Mirrors `State::or_else`. -/
def or_else : State T E → (E → State T O) → State T O
  | State.Pending, _ => State.Pending
  | State.Resolve r, _ => State.Resolve r
  | State.Resolved, _ => State.Resolved
  | State.Reject e, op => op e
  | State.Rejected, _ => State.Rejected

/-- Mirrors `State::take`, which mutates the receiver in place and returns
the old value. Rendered functionally: the first component is the returned
value, the second component is the new value of the receiver. `Resolve`
and `Reject` advance to `Resolved` and `Rejected` via `mem::replace`; the
other three variants return a fresh equal value and leave the receiver
unchanged. -/
def take : State T E → State T E × State T E
  | State.Pending => (State.Pending, State.Pending)
  | State.Resolve r => (State.Resolve r, State.Resolved)
  | State.Resolved => (State.Resolved, State.Resolved)
  | State.Reject e => (State.Reject e, State.Rejected)
  | State.Rejected => (State.Rejected, State.Rejected)

/-- Ghost observation: the list of values written to the receiver by one
call of `State::take` (a write happens only in the `mem::replace` cases). -/
def takeWrites : State T E → List (State T E)
  | State.Resolve _ => [State.Resolved]
  | State.Reject _ => [State.Rejected]
  | _ => []

end State

/-
Task model (src/task/task.rs). A Rust `Task<T, E>` owns a boxed `FnMut`
step closure and the current `State<T, E>`. An `FnMut` closure is a
mutable environment plus a function on it, so a task is rendered as a
record parameterised by the closure environment type `sigma`: a step
function from the environment to a new environment and a `State`, the
current environment, and the current state. A Rust panic (reachable in
the combinator closures through `Option::unwrap`) is rendered as `none`,
so the step function is `Option`-valued.
-/

/-- A polled task: step closure (environment transformer that may panic),
current closure environment, and current state. -/
structure Task (σ T E : Type) where
  step : σ → Option (σ × State T E)
  cst : σ
  state : State T E

namespace Task

variable {σ τ γ δ T E U V O : Type}

/-- Mirrors `Task::new`: wrap a step closure, initial state `Pending`. -/
def new (step : σ → Option (σ × State T E)) (c : σ) : Task σ T E :=
  { step := step, cst := c, state := State.Pending }

/-- Mirrors the `Executable::exec` implementation for `Task`: if the state
is not `Pending` return `true` at once; otherwise invoke the step closure
once, store its result as the new state, and report whether the state is
no longer `Pending`. The returned task is the receiver after the call;
`none` models a panic inside the closure. -/
def exec (t : Task σ T E) : Option (Task σ T E × Bool) :=
  if t.state.is_pending then
    match t.step t.cst with
    | none => none
    | some (c, s) => some ({ step := t.step, cst := c, state := s }, !s.is_pending)
  else
    some (t, true)

/-- Instrumented variant of `exec` whose extra boolean records whether the
step closure was invoked during the call. -/
def execI (t : Task σ T E) : Option (Task σ T E × Bool × Bool) :=
  if t.state.is_pending then
    match t.step t.cst with
    | none => none
    | some (c, s) => some ({ step := t.step, cst := c, state := s }, !s.is_pending, true)
  else
    some (t, true, false)

/-- Instrumented variant of `exec` whose extra list records the values
written to the `state` field during the call. -/
def execTr (t : Task σ T E) : Option (Task σ T E × List (State T E)) :=
  if t.state.is_pending then
    match t.step t.cst with
    | none => none
    | some (c, s) => some ({ step := t.step, cst := c, state := s }, [s])
  else
    some (t, [])

/-- Iterate `exec` a given number of times, propagating panics. -/
def execN : Nat → Task σ T E → Option (Task σ T E)
  | 0, t => some t
  | n + 1, t =>
    match t.exec with
    | none => none
    | some (t1, _) => execN n t1

/-- Mirrors `Task::poll`: run `exec` once; if the state is `Pending`
return no result, otherwise `take` the state and project it through
`into_result`. -/
def poll (t : Task σ T E) : Option (Task σ T E × Option (Except E T)) :=
  match t.exec with
  | none => none
  | some (t1, _) =>
    if t1.state.is_pending then
      some (t1, none)
    else
      some ({ t1 with state := (t1.state.take).2 }, (t1.state.take).1.into_result)

/-- Instrumented variant of `poll` recording the values written to the
`state` field during the call. -/
def pollTr (t : Task σ T E) : Option (Task σ T E × List (State T E)) :=
  match t.execTr with
  | none => none
  | some (t1, w) =>
    if t1.state.is_pending then
      some (t1, w)
    else
      some ({ t1 with state := (t1.state.take).2 }, w ++ t1.state.takeWrites)

/-- Mirrors `Task::wait`, which loops `exec` until the state is no longer
`Pending` and then projects the state through `into_result`. The Rust
loop is unbounded, so it is rendered with explicit fuel: `none` means the
fuel ran out before settlement or a closure panicked; `some r` means the
loop returned `r`. -/
def waitF : Nat → Task σ T E → Option (Option (Except E T))
  | 0, _ => none
  | n + 1, t =>
    match t.exec with
    | none => none
    | some (t1, _) =>
      if t1.state.is_pending then waitF n t1
      else some t1.state.into_result

/-- The step closure built by `Task::then`. The continuation `g` is an
`FnMut(T) -> State<U, E>` closure, rendered as an environment transformer
over `γ`. The closure executes the inner task once; if the inner state is
no longer pending it takes the state, unwraps `into_result` (a panic,
`none`, when the taken state carries no payload), and either invokes `g`
on a resolution or re-rejects the error; otherwise the composite is
pending. -/
def thenStep (g : γ → T → γ × State U E) :
    Task σ T E × γ → Option ((Task σ T E × γ) × State U E) := fun p =>
  match p.1.exec with
  | none => none
  | some (t1, _) =>
    if !t1.state.is_pending then
      match (t1.state.take).1.into_result with
      | none => none
      | some (Except.ok r) =>
        some (({ t1 with state := (t1.state.take).2 }, (g p.2 r).1), (g p.2 r).2)
      | some (Except.error e) =>
        some (({ t1 with state := (t1.state.take).2 }, p.2), State.Reject e)
    else
      some ((t1, p.2), State.Pending)

/-- Mirrors `Task::then`: a new task wrapping `thenStep` around the
consumed inner task and the continuation environment. Named `thenT`
because `then` is reserved in Lean. -/
def thenT (t : Task σ T E) (g : γ → T → γ × State U E) (g0 : γ) :
    Task (Task σ T E × γ) U E :=
  Task.new (thenStep g) (t, g0)

/-- Mirrors `Task::map`, defined in the source as
`self.then(move |v| State::Resolve(map(v)))`. -/
def map (t : Task σ T E) (f : T → U) : Task (Task σ T E × Unit) U E :=
  t.thenT (fun u v => (u, State.Resolve (f v))) ()

/-- The step closure built by `Task::join`: execute each inner task once
when that task is still pending, then return the rejection of the first
task if present, else the rejection of the second task, else the pair of
resolutions when both are `Resolve`, else `Pending`. Settled payloads are
consumed with `take` followed by `unwrap` (`none` on the unreachable
unwrap failure). -/
def joinStep :
    Task σ T E × Task τ U E →
    Option ((Task σ T E × Task τ U E) × State (T × U) E) := fun p =>
  match (if p.1.state.is_pending then Option.map Prod.fst p.1.exec else some p.1) with
  | none => none
  | some a =>
    match (if p.2.state.is_pending then Option.map Prod.fst p.2.exec else some p.2) with
    | none => none
    | some b =>
      if a.state.is_reject then
        match ((a.state.take).1).reject with
        | none => none
        | some e => some (({ a with state := (a.state.take).2 }, b), State.Reject e)
      else if b.state.is_reject then
        match ((b.state.take).1).reject with
        | none => none
        | some e => some ((a, { b with state := (b.state.take).2 }), State.Reject e)
      else if a.state.is_resolve && b.state.is_resolve then
        match ((a.state.take).1).resolve, ((b.state.take).1).resolve with
        | some av, some bv =>
          some (({ a with state := (a.state.take).2 },
                  { b with state := (b.state.take).2 }), State.Resolve (av, bv))
        | _, _ => none
      else
        some ((a, b), State.Pending)

/-- Mirrors `Task::join`: a new task wrapping `joinStep` around the two
consumed inner tasks. -/
def join (t : Task σ T E) (u : Task τ U E) :
    Task (Task σ T E × Task τ U E) (T × U) E :=
  Task.new joinStep (t, u)

/-- The step closure built by `Task::recover`. The handler `h` is an
`FnMut(E) -> State<T, O>` closure rendered over an environment `δ`. -/
def recoverStep (h : δ → E → δ × State T O) :
    Task σ T E × δ → Option ((Task σ T E × δ) × State T O) := fun p =>
  match p.1.exec with
  | none => none
  | some (t1, _) =>
    if !t1.state.is_pending then
      match (t1.state.take).1.into_result with
      | none => none
      | some (Except.ok r) =>
        some (({ t1 with state := (t1.state.take).2 }, p.2), State.Resolve r)
      | some (Except.error e) =>
        some (({ t1 with state := (t1.state.take).2 }, (h p.2 e).1), (h p.2 e).2)
    else
      some ((t1, p.2), State.Pending)

/-- Mirrors `Task::recover`: a new task wrapping `recoverStep` around the
consumed inner task and the handler environment. -/
def recover (t : Task σ T E) (h : δ → E → δ × State T O) (h0 : δ) :
    Task (Task σ T E × δ) T O :=
  Task.new (recoverStep h) (t, h0)

end Task

/-
TaskQueue model (src/runner/task_queue.rs). A queue is a locked
`Vec<Box<Executable>>`; the lock discipline is out of scope of the
claims settled here, so the queue content is rendered as a list with the
front of the vector at the head.
-/

namespace TaskQueue

variable {α : Type}

/-- Mirrors `TaskQueue::insert`: push to the tail. -/
def insert (q : List α) (x : α) : List α := q ++ [x]

/-- Mirrors `TaskQueue::append`: move-append a batch to the tail. -/
def append (q : List α) (batch : List α) : List α := q ++ batch

/-- Mirrors `TaskQueue::next`: pop from the head; the first component is
the popped element, the second is the remaining queue. -/
def next (q : List α) : Option α × List α :=
  match q with
  | [] => (none, [])
  | x :: rest => (some x, rest)

/-- Mirrors `TaskQueue::split`: when the length is below 2 return an
empty batch and leave the queue unchanged, otherwise `split_off` at
`len / 2` — the first component is the returned batch (the elements from
index `len / 2` onward), the second is the remaining queue (the first
`len / 2` elements). -/
def split (q : List α) : List α × List α :=
  if q.length < 2 then ([], q)
  else (q.drop (q.length / 2), q.take (q.length / 2))

/-- Mirrors `TaskQueue::len`. -/
def len (q : List α) : Nat := q.length

end TaskQueue

/-
Machinery for the lifecycle claim: a task is driven by a user through
calls of `exec` and `poll` (`wait` is a repetition of `exec` followed by
a read, so its writes to the state field are those of its `exec` calls).
The instrumented runs record every value written to the state field.
-/

/-- One driving operation on a task. -/
inductive Op where
  | exec : Op
  | poll : Op

namespace Task

variable {σ T E : Type}

/-- Apply one driving operation, recording state-field writes. -/
def applyOpTr (t : Task σ T E) : Op → Option (Task σ T E × List (State T E))
  | Op.exec => t.execTr
  | Op.poll => t.pollTr

/-- Run a list of driving operations, concatenating the recorded
state-field writes; `none` models a panic during some operation. -/
def runTr (t : Task σ T E) : List Op → Option (Task σ T E × List (State T E))
  | [] => some (t, [])
  | op :: ops =>
    match t.applyOpTr op with
    | none => none
    | some (t1, w1) =>
      match t1.runTr ops with
      | none => none
      | some (t2, w2) => some (t2, w1 ++ w2)

end Task

/-- Last element of a list of states, with a default for the empty list. -/
def lastOf {T E : Type} (s : State T E) : List (State T E) → State T E
  | [] => s
  | x :: rest => lastOf x rest

/-- A step closure is well formed when it never returns one of the
payload-free taken-terminal variants `Resolved` or `Rejected`. -/
def WFStep {σ T E : Type} (f : σ → Option (σ × State T E)) : Prop :=
  ∀ c c1 s, f c = some (c1, s) → s.is_resolved = false ∧ s.is_rejected = false

/-- Invariant for the lifecycle proof: the lists of state-field writes
that can still be produced by driving a task whose state field currently
holds the given value. From `Pending`, any run of `Pending` writes
followed by a settlement; from a payload state, at most the one taken
write; from a taken-terminal state, nothing. -/
def FutureWrites {T E : Type} : State T E → List (State T E) → Prop
  | _, [] => True
  | State.Pending, s :: rest =>
    (s = State.Pending ∧ FutureWrites State.Pending rest) ∨
    (s.is_resolve = true ∧ FutureWrites s rest) ∨
    (s.is_reject = true ∧ FutureWrites s rest)
  | State.Resolve _, s :: rest => s = State.Resolved ∧ rest = []
  | State.Resolved, _ :: _ => False
  | State.Reject _, s :: rest => s = State.Rejected ∧ rest = []
  | State.Rejected, _ :: _ => False

/-- A run of taken-terminal states of one kind: all `Resolved` when the
flag is true, all `Rejected` when it is false. -/
def AllTaken {T E : Type} : Bool → List (State T E) → Prop
  | _, [] => True
  | b, s :: rest => s = (if b then State.Resolved else State.Rejected) ∧ AllTaken b rest

/-- The settled tail of the lifecycle language: a payload-carrying state
followed by the corresponding taken-terminal states. -/
def SettledRun {T E : Type} : List (State T E) → Prop
  | [] => False
  | State.Resolve _ :: rest => AllTaken true rest
  | State.Reject _ :: rest => AllTaken false rest
  | _ :: _ => False

/-- The lifecycle language of the spec: `Pending* · (Resolve|Reject) ·`
corresponding taken-terminal states. -/
def LifecycleOK {T E : Type} : List (State T E) → Prop
  | [] => False
  | s :: rest => (s = State.Pending ∧ LifecycleOK rest) ∨ SettledRun (s :: rest)

/-- Modelled from the spec words for `join`: the outcome of one
join-step as a function of the two stepped states — the first task
checked for rejection before the second, the pair of resolutions when
both are `Resolve`, pending otherwise. Stated from the spec to be
compared against the step behavior of `Task.join`. -/
def joinSpecResult {T U E : Type} : State T E → State U E → State (T × U) E
  | State.Reject e, _ => State.Reject e
  | _, State.Reject e => State.Reject e
  | State.Resolve a, State.Resolve b => State.Resolve (a, b)
  | _, _ => State.Pending

/-
Concrete example tasks used by the counterexamples and witnesses.
-/

/-- Example task whose closure resolves to 7 on its first invocation. -/
def exResolve7 : Task Unit Nat Nat :=
  Task.new (fun _ => some ((), State.Resolve 7)) ()

/-- The task `exResolve7` after its single settling step. -/
def exResolve7Done : Task Unit Nat Nat :=
  { exResolve7 with state := State.Resolve 7 }

/-- Example task whose closure returns the payload-free taken-terminal
variant `Resolved` directly on its first invocation. -/
def exResolvedNow : Task Unit Nat Nat :=
  Task.new (fun _ => some ((), State.Resolved)) ()

/-- Continuation (for `then`) that always returns `Pending`. -/
def gPending : Unit → Nat → Unit × State Nat Nat :=
  fun _ _ => ((), State.Pending)

/-- Example task whose closure rejects with 1 on its first invocation. -/
def exReject1 : Task Unit Nat Nat :=
  Task.new (fun _ => some ((), State.Reject 1)) ()

/-- Example task whose closure rejects with 2 on its first invocation. -/
def exReject2 : Task Unit Nat Nat :=
  Task.new (fun _ => some ((), State.Reject 2)) ()

/-- The task `exReject1` after its single settling step. -/
def exReject1Stepped : Task Unit Nat Nat :=
  { exReject1 with state := State.Reject 1 }

/-- The task `exReject2` after its single settling step. -/
def exReject2Stepped : Task Unit Nat Nat :=
  { exReject2 with state := State.Reject 2 }

/-
Theorems. First the helper lemmas relating the instrumented executors to
the plain ones, then the theorems settling the claims.
-/

section Theorems

variable {σ τ γ δ T E U V O : Type}

/-- The instrumented executor agrees with `exec` on its task and
completion-flag components. -/
theorem execI_sound (t : Task σ T E) :
    t.exec = Option.map (fun p => (p.1, p.2.1)) t.execI := by
  unfold Task.exec Task.execI
  cases ht : t.state.is_pending <;> simp [ht]
  cases t.step t.cst with
  | none => rfl
  | some p => rfl

/-- The write-recording executor agrees with `exec`: same resulting task,
and the completion flag of `exec` is recomputable from the state. -/
theorem execTr_sound (t : Task σ T E) :
    t.exec = Option.map (fun p => (p.1, !p.1.state.is_pending)) t.execTr := by
  unfold Task.exec Task.execTr
  cases ht : t.state.is_pending <;> simp [ht]
  cases t.step t.cst with
  | none => rfl
  | some p => rfl

/-- The write-recording poll agrees with `poll` on the resulting task. -/
theorem pollTr_sound (t : Task σ T E) :
    Option.map Prod.fst t.poll = Option.map Prod.fst t.pollTr := by
  unfold Task.poll Task.pollTr
  rw [execTr_sound t]
  cases t.execTr with
  | none => rfl
  | some p =>
    simp only [Option.map_some]
    cases hp : p.1.state.is_pending <;> simp [hp]

/-- Running `exec` on a freshly wrapped step closure invokes the closure
once and stores its result. -/
theorem exec_new (f : σ → Option (σ × State T E)) (c : σ) :
    (Task.new f c).exec =
      match f c with
      | none => none
      | some (c1, s) => some ({ step := f, cst := c1, state := s }, !s.is_pending) :=
  rfl

/-- C1: evaluation of the code at the failing input. For the task
resolving to 7 on its first step composed with a continuation that
returns `Pending`, the first step of the composite leaves it pending —
but the second step panics (renders as `none`) at
`self.state.take().into_result().unwrap()`, because the payload of the
inner task was already consumed, so the composite can never be stepped
to settlement as the claim demands. -/
theorem C1_then_pending_panics :
    Option.map (fun p => p.1.state) (exResolve7.thenT gPending ()).exec
      = some State.Pending ∧
    ((exResolve7.thenT gPending ()).exec).bind (fun p => p.1.exec) = none :=
  ⟨rfl, rfl⟩

/-- C2 counterexample: `State::and` on a `Pending` receiver returns its
second argument, not `Pending`, refuting the claim that `and` propagates
`Pending` regardless of the second argument. -/
theorem C2_counterexample :
    State.and (State.Pending : State Nat Nat) (State.Resolve 1) = State.Resolve 1 ∧
    State.and (State.Pending : State Nat Nat) (State.Resolve 1) ≠ State.Pending :=
  ⟨rfl, by decide⟩

/-- C2 amended: `and_then` and `or_else` propagate `Pending`, `Resolved`
and `Rejected` unchanged, apply their operation to the payload of
`Resolve` respectively `Reject`, and short-circuit the other settled
payload unchanged. `and` short-circuits only on `Reject` and returns its
second argument for every other receiver (including `Pending`,
`Resolved` and `Rejected`); dually, `or` short-circuits only on
`Resolve` and returns its second argument for every other receiver. -/
theorem C2_ops_characterization (v : T) (e : E) (res : State U E) (res2 : State T O)
    (f : T → State U E) (g : E → State T O) :
    ((State.Pending : State T E).and_then f = State.Pending ∧
     (State.Resolve v : State T E).and_then f = f v ∧
     (State.Resolved : State T E).and_then f = State.Resolved ∧
     (State.Reject e : State T E).and_then f = State.Reject e ∧
     (State.Rejected : State T E).and_then f = State.Rejected) ∧
    ((State.Pending : State T E).or_else g = State.Pending ∧
     (State.Resolve v : State T E).or_else g = State.Resolve v ∧
     (State.Resolved : State T E).or_else g = State.Resolved ∧
     (State.Reject e : State T E).or_else g = g e ∧
     (State.Rejected : State T E).or_else g = State.Rejected) ∧
    ((State.Reject e : State T E).and res = State.Reject e ∧
     (State.Pending : State T E).and res = res ∧
     (State.Resolve v : State T E).and res = res ∧
     (State.Resolved : State T E).and res = res ∧
     (State.Rejected : State T E).and res = res) ∧
    ((State.Resolve v : State T E).or res2 = State.Resolve v ∧
     (State.Pending : State T E).or res2 = res2 ∧
     (State.Reject e : State T E).or res2 = res2 ∧
     (State.Resolved : State T E).or res2 = res2 ∧
     (State.Rejected : State T E).or res2 = res2) :=
  ⟨⟨rfl, rfl, rfl, rfl, rfl⟩, ⟨rfl, rfl, rfl, rfl, rfl⟩,
   ⟨rfl, rfl, rfl, rfl, rfl⟩, ⟨rfl, rfl, rfl, rfl, rfl⟩⟩

/-- A state on which `is_pending` holds is `Pending`. -/
theorem state_eq_pending (s : State T E) (h : s.is_pending = true) :
    s = State.Pending := by
  cases s <;> simp [State.is_pending] at h ⊢

/-- The last element of a concatenation. -/
theorem lastOf_append (w1 w2 : List (State T E)) :
    ∀ s, lastOf s (w1 ++ w2) = lastOf (lastOf s w1) w2 := by
  induction w1 with
  | nil => intro s; rfl
  | cons x rest ih => intro s; exact ih x

/-- The empty write list is possible from every state. -/
theorem futureWrites_nil (s : State T E) : FutureWrites s [] := by
  cases s <;> exact trivial

/-- No write can follow once the state field holds `Resolved`. -/
theorem futureWrites_resolved (w : List (State T E)) :
    FutureWrites State.Resolved w → w = [] := by
  cases w with
  | nil => exact fun _ => rfl
  | cons x rest => exact fun h => h.elim

/-- No write can follow once the state field holds `Rejected`. -/
theorem futureWrites_rejected (w : List (State T E)) :
    FutureWrites State.Rejected w → w = [] := by
  cases w with
  | nil => exact fun _ => rfl
  | cons x rest => exact fun h => h.elim

/-- From a state field holding `Resolve v`, the only possible future
writes are none at all or the single taken write. -/
theorem futureWrites_resolve (v : T) (w : List (State T E)) :
    FutureWrites (State.Resolve v) w → w = [] ∨ w = [State.Resolved] := by
  cases w with
  | nil => exact fun _ => Or.inl rfl
  | cons x rest =>
    intro h
    obtain ⟨h1, h2⟩ := h
    subst h1
    subst h2
    exact Or.inr rfl

/-- From a state field holding `Reject e`, the only possible future
writes are none at all or the single taken write. -/
theorem futureWrites_reject (e : E) (w : List (State T E)) :
    FutureWrites (State.Reject e) w → w = [] ∨ w = [State.Rejected] := by
  cases w with
  | nil => exact fun _ => Or.inl rfl
  | cons x rest =>
    intro h
    obtain ⟨h1, h2⟩ := h
    subst h1
    subst h2
    exact Or.inr rfl

/-- Characterization of one driving operation on a task with a
well-formed step closure: the step closure is preserved, the new state is
the last write (or the old state when nothing was written), and the
recorded writes prepend validly to any writes still possible afterwards. -/
theorem applyOpTr_char (op : Op) (t t1 : Task σ T E) (w1 : List (State T E))
    (hwf : WFStep t.step) (h : t.applyOpTr op = some (t1, w1)) :
    t1.step = t.step ∧ t1.state = lastOf t.state w1 ∧
      ∀ w2, FutureWrites t1.state w2 → FutureWrites t.state (w1 ++ w2) := by
  cases op with
  | exec =>
    unfold Task.applyOpTr Task.execTr at h
    by_cases hp : t.state.is_pending = true
    · rw [if_pos hp] at h
      have htp := state_eq_pending t.state hp
      cases hs : t.step t.cst with
      | none => rw [hs] at h; cases h
      | some q =>
        obtain ⟨c, s⟩ := q
        rw [hs] at h
        injection h with h1
        injection h1 with h2 h3
        subst h3
        rw [← h2]
        obtain ⟨hnr, hnj⟩ := hwf t.cst c s hs
        refine ⟨rfl, rfl, ?_⟩
        intro w2 hw
        rw [htp]
        cases s with
        | Pending => exact Or.inl ⟨rfl, hw⟩
        | Resolve v => exact Or.inr (Or.inl ⟨rfl, hw⟩)
        | Reject e => exact Or.inr (Or.inr ⟨rfl, hw⟩)
        | Resolved => simp [State.is_resolved] at hnr
        | Rejected => simp [State.is_rejected] at hnj
    · rw [if_neg hp] at h
      injection h with h1
      injection h1 with h2 h3
      subst h3
      rw [← h2]
      exact ⟨rfl, rfl, fun w2 hw => hw⟩
  | poll =>
    have hpoll : t.pollTr = some (t1, w1) := h
    unfold Task.pollTr at hpoll
    by_cases hp : t.state.is_pending = true
    · have htp := state_eq_pending t.state hp
      cases hs : t.step t.cst with
      | none =>
        have hex : t.execTr = none := by unfold Task.execTr; rw [if_pos hp, hs]
        rw [hex] at hpoll
        cases hpoll
      | some q =>
        obtain ⟨c, s⟩ := q
        have hex : t.execTr = some ({ step := t.step, cst := c, state := s }, [s]) := by
          unfold Task.execTr
          rw [if_pos hp, hs]
        rw [hex] at hpoll
        obtain ⟨hnr, hnj⟩ := hwf t.cst c s hs
        cases s with
        | Pending =>
          injection hpoll with h1
          injection h1 with h2 h3
          subst h3
          rw [← h2]
          refine ⟨rfl, rfl, ?_⟩
          intro w2 hw
          rw [htp]
          exact Or.inl ⟨rfl, hw⟩
        | Resolve v =>
          injection hpoll with h1
          injection h1 with h2 h3
          subst h3
          rw [← h2]
          refine ⟨rfl, rfl, ?_⟩
          intro w2 hw
          rcases futureWrites_resolved w2 hw with rfl
          rw [htp]
          exact Or.inr (Or.inl ⟨rfl, rfl, rfl⟩)
        | Reject e =>
          injection hpoll with h1
          injection h1 with h2 h3
          subst h3
          rw [← h2]
          refine ⟨rfl, rfl, ?_⟩
          intro w2 hw
          rcases futureWrites_rejected w2 hw with rfl
          rw [htp]
          exact Or.inr (Or.inr ⟨rfl, rfl, rfl⟩)
        | Resolved => simp [State.is_resolved] at hnr
        | Rejected => simp [State.is_rejected] at hnj
    · have hex : t.execTr = some (t, []) := by unfold Task.execTr; rw [if_neg hp]
      simp only [hex] at hpoll
      rw [if_neg hp] at hpoll
      cases hstate : t.state with
      | Pending => exact absurd (by rw [hstate]; rfl) hp
      | Resolve v =>
        rw [hstate] at hpoll
        injection hpoll with h1
        injection h1 with h2 h3
        subst h3
        rw [← h2]
        refine ⟨rfl, rfl, ?_⟩
        intro w2 hw
        rcases futureWrites_resolved w2 hw with rfl
        exact ⟨rfl, rfl⟩
      | Reject e =>
        rw [hstate] at hpoll
        injection hpoll with h1
        injection h1 with h2 h3
        subst h3
        rw [← h2]
        refine ⟨rfl, rfl, ?_⟩
        intro w2 hw
        rcases futureWrites_rejected w2 hw with rfl
        exact ⟨rfl, rfl⟩
      | Resolved =>
        rw [hstate] at hpoll
        injection hpoll with h1
        injection h1 with h2 h3
        subst h3
        rw [← h2]
        exact ⟨rfl, rfl, fun w2 hw => hw⟩
      | Rejected =>
        rw [hstate] at hpoll
        injection hpoll with h1
        injection h1 with h2 h3
        subst h3
        rw [← h2]
        exact ⟨rfl, rfl, fun w2 hw => hw⟩

/-- The writes produced by a full run from a task with a well-formed
step closure are valid future writes for the initial state, and the
final state equals the last write (or the initial state when nothing was
written). -/
theorem runTr_writes (ops : List Op) :
    ∀ (t t1 : Task σ T E) (w : List (State T E)),
      WFStep t.step → t.runTr ops = some (t1, w) →
      FutureWrites t.state w ∧ t1.state = lastOf t.state w := by
  induction ops with
  | nil =>
    intro t t1 w hwf hrun
    injection hrun with h1
    injection h1 with h2 h3
    subst h3
    rw [← h2]
    exact ⟨futureWrites_nil t.state, rfl⟩
  | cons op ops ih =>
    intro t t1 w hwf hrun
    unfold Task.runTr at hrun
    cases hop : t.applyOpTr op with
    | none => rw [hop] at hrun; cases hrun
    | some q =>
      obtain ⟨ta, w1⟩ := q
      simp only [hop] at hrun
      cases hrun2 : ta.runTr ops with
      | none => rw [hrun2] at hrun; cases hrun
      | some q2 =>
        obtain ⟨t2, w2⟩ := q2
        rw [hrun2] at hrun
        injection hrun with h1
        injection h1 with h2 h3
        subst h3
        obtain ⟨hstep, hlast, htrans⟩ := applyOpTr_char op t ta w1 hwf hop
        have hwf2 : WFStep ta.step := by rw [hstep]; exact hwf
        obtain ⟨hfw2, hlast2⟩ := ih ta t2 w2 hwf2 hrun2
        refine ⟨htrans w2 hfw2, ?_⟩
        rw [← h2, hlast2, lastOf_append w1 w2, ← hlast]

/-- A valid write list from a pending state whose last entry is settled
spells out the lifecycle language. -/
theorem futureWrites_lifecycle :
    ∀ (w : List (State T E)), FutureWrites State.Pending w →
      lastOf State.Pending w ≠ State.Pending →
      LifecycleOK (State.Pending :: w) := by
  intro w
  induction w with
  | nil => intro _ hlast; exact absurd rfl hlast
  | cons s rest ih =>
    intro hfw hlast
    rcases hfw with ⟨hs, hrest⟩ | ⟨hs, hrest⟩ | ⟨hs, hrest⟩
    · subst hs
      exact Or.inl ⟨rfl, ih hrest hlast⟩
    · cases s with
      | Resolve v =>
        rcases futureWrites_resolve v rest hrest with rfl | rfl
        · exact Or.inl ⟨rfl, Or.inr trivial⟩
        · exact Or.inl ⟨rfl, Or.inr ⟨rfl, trivial⟩⟩
      | Pending => exact absurd hs (by simp [State.is_resolve])
      | Resolved => exact absurd hs (by simp [State.is_resolve])
      | Reject e => exact absurd hs (by simp [State.is_resolve])
      | Rejected => exact absurd hs (by simp [State.is_resolve])
    · cases s with
      | Reject e =>
        rcases futureWrites_reject e rest hrest with rfl | rfl
        · exact Or.inl ⟨rfl, Or.inr trivial⟩
        · exact Or.inl ⟨rfl, Or.inr ⟨rfl, trivial⟩⟩
      | Pending => exact absurd hs (by simp [State.is_reject])
      | Resolve v => exact absurd hs (by simp [State.is_reject])
      | Resolved => exact absurd hs (by simp [State.is_reject])
      | Rejected => exact absurd hs (by simp [State.is_reject])

/-- C3 (amended): for every task whose step closure is well formed (it
never returns the taken-terminal variants directly), started fresh in
`Pending` and driven through any panic-free sequence of `exec` and
`poll` calls at the end of which it has settled, the sequence of values
held by the state field over the run — the initial `Pending` followed by
every value written — lies in the language
`Pending* · (Resolve|Reject) ·` corresponding-taken-terminal states. In
particular the state never returns to `Pending`, the payload-carrying
settled state is held exactly once, and afterwards only its taken
counterpart is held. -/
theorem C3_lifecycle (t t1 : Task σ T E) (ops : List Op) (w : List (State T E))
    (h0 : t.state = State.Pending) (hwf : WFStep t.step)
    (hrun : t.runTr ops = some (t1, w)) (hsettle : t1.state ≠ State.Pending) :
    LifecycleOK (State.Pending :: w) := by
  obtain ⟨hfw, hlast⟩ := runTr_writes ops t t1 w hwf hrun
  rw [h0] at hfw hlast
  exact futureWrites_lifecycle w hfw (by rw [← hlast]; exact hsettle)

/-- C3 counterexample: a step closure may return the taken-terminal
variant `Resolved` directly; the states held by that task over one
`exec` are `Pending` then `Resolved`, a sequence outside the claimed
language `Pending* · (Resolve|Reject) · (Resolved|Rejected)*` because no
payload-carrying state is ever held. -/
theorem C3_counterexample :
    exResolvedNow.runTr [Op.exec]
      = some ({ exResolvedNow with state := State.Resolved }, [State.Resolved]) ∧
    ¬ LifecycleOK [State.Pending, (State.Resolved : State Nat Nat)] := by
  refine ⟨rfl, ?_⟩
  intro h
  rcases h with ⟨-, h2⟩ | h2
  · rcases h2 with ⟨h3, -⟩ | h3
    · exact State.noConfusion h3
    · exact h3
  · exact h2

/-- C3 witness: the task resolving to 7, driven by one `exec` then one
`poll`, holds the states `Pending`, `Resolve 7`, `Resolved` — a word of
the lifecycle language. -/
theorem C3_lifecycle_witness :
    LifecycleOK [State.Pending, (State.Resolve 7 : State Nat Nat), State.Resolved] :=
  C3_lifecycle exResolve7 { exResolve7 with state := State.Resolved }
    [Op.exec, Op.poll] [State.Resolve 7, State.Resolved] rfl
    (fun c c1 s h => by
      injection h with h1
      injection h1 with h2 h3
      subst h3
      exact ⟨rfl, rfl⟩)
    rfl (fun h => State.noConfusion h)

/-- C4: once `exec` has returned true, the state is no longer pending,
so every subsequent `exec` takes the early-return branch: it returns
true, does not invoke the step closure (instrumented flag false), and
leaves the task unchanged — hence any number of further `exec` calls
leave it unchanged. -/
theorem C4_exec_idempotent (t t1 : Task σ T E) (h : t.exec = some (t1, true)) :
    t1.execI = some (t1, true, false) ∧ ∀ n, t1.execN n = some t1 := by
  have ht1 : t1.state.is_pending = false := by
    unfold Task.exec at h
    by_cases hp : t.state.is_pending = true
    · rw [if_pos hp] at h
      cases hs : t.step t.cst with
      | none => rw [hs] at h; cases h
      | some p =>
        obtain ⟨c, s⟩ := p
        rw [hs] at h
        injection h with h1
        injection h1 with h2 h3
        rw [← h2]
        simpa using h3
    · rw [if_neg hp] at h
      injection h with h1
      injection h1 with h2 h3
      rw [← h2]
      simpa using hp
  have hexecI : t1.execI = some (t1, true, false) := by
    unfold Task.execI
    rw [ht1]
    rfl
  have hexec : t1.exec = some (t1, true) := by
    unfold Task.exec
    rw [ht1]
    rfl
  refine ⟨hexecI, ?_⟩
  intro n
  induction n with
  | zero => rfl
  | succ n ih =>
    unfold Task.execN
    rw [hexec]
    exact ih

/-- C4 witness: the task resolving to 7 settles on its first `exec`,
after which `execI` reports completion without invoking the closure and
iterated `exec` leaves the task unchanged. -/
theorem C4_exec_idempotent_witness :
    exResolve7Done.execI = some (exResolve7Done, true, false) ∧
    exResolve7Done.execN 3 = some exResolve7Done :=
  ⟨(C4_exec_idempotent exResolve7 exResolve7Done rfl).1,
   (C4_exec_idempotent exResolve7 exResolve7Done rfl).2 3⟩

/-- C6: `take` returns the current value in every case; it advances
`Resolve v` to `Resolved` and `Reject e` to `Rejected` in place, and
leaves `Pending`, `Resolved` and `Rejected` unchanged. -/
theorem C6_take_characterization (v : T) (e : E) :
    (State.Pending : State T E).take = (State.Pending, State.Pending) ∧
    (State.Resolve v : State T E).take = (State.Resolve v, State.Resolved) ∧
    (State.Resolved : State T E).take = (State.Resolved, State.Resolved) ∧
    (State.Reject e : State T E).take = (State.Reject e, State.Rejected) ∧
    (State.Rejected : State T E).take = (State.Rejected, State.Rejected) :=
  ⟨rfl, rfl, rfl, rfl, rfl⟩

/-- C7: on a queue shorter than 2 the split returns an empty batch and
leaves the queue unchanged; on a queue of length at least 2 it returns
exactly the elements from index `len / 2` onward in order, keeps the
first `len / 2` elements, and loses or duplicates nothing (the remaining
queue followed by the batch recomposes the original queue). -/
theorem C7_split_characterization {α : Type} (q : List α) :
    (q.length < 2 → TaskQueue.split q = ([], q)) ∧
    (2 ≤ q.length →
      (TaskQueue.split q).1 = q.drop (q.length / 2) ∧
      (TaskQueue.split q).2 = q.take (q.length / 2) ∧
      (TaskQueue.split q).2 ++ (TaskQueue.split q).1 = q ∧
      (TaskQueue.split q).2.length = q.length / 2) := by
  constructor
  · intro h
    unfold TaskQueue.split
    rw [if_pos h]
  · intro h
    have hnot : ¬ q.length < 2 := by omega
    unfold TaskQueue.split
    rw [if_neg hnot]
    refine ⟨rfl, rfl, List.take_append_drop _ _, ?_⟩
    simp only [List.length_take]
    omega

/-- C7 witness: splitting a queue of length 3 returns the back two
elements, and splitting a queue of length 1 returns an empty batch and
does not mutate. -/
theorem C7_split_witness :
    (TaskQueue.split ([10, 20, 30] : List Nat)).1
      = ([10, 20, 30] : List Nat).drop (([10, 20, 30] : List Nat).length / 2) ∧
    TaskQueue.split ([9] : List Nat) = ([], [9]) :=
  ⟨((C7_split_characterization ([10, 20, 30] : List Nat)).2 (by decide)).1,
   (C7_split_characterization ([9] : List Nat)).1 (by decide)⟩

/-- C9: constructing `map`, `then`, `join` or `recover` builds a record
whose closure environment holds the input tasks and the closure
environments exactly as given — no step of an input runs and no supplied
function is invoked — and whose state is `Pending`. -/
theorem C9_combinator_laziness (t : Task σ T E) (u : Task τ U E)
    (f : T → V) (g : γ → T → γ × State U E) (g0 : γ)
    (h : δ → E → δ × State T O) (h0 : δ) :
    (t.map f).cst = (t, ()) ∧ (t.map f).state = State.Pending ∧
    (t.thenT g g0).cst = (t, g0) ∧ (t.thenT g g0).state = State.Pending ∧
    (t.join u).cst = (t, u) ∧ (t.join u).state = State.Pending ∧
    (t.recover h h0).cst = (t, h0) ∧ (t.recover h h0).state = State.Pending :=
  ⟨rfl, rfl, rfl, rfl, rfl, rfl, rfl, rfl⟩

/-- C5: one step of the composite built by `join` executes each input
once when that input is still pending (the hypotheses name the stepped
inputs `a2` and `b2`; an input that is no longer pending is left as it
is), and the new composite state is exactly the spec outcome
`joinSpecResult`: the rejection of the first task if present — checked
before the second, so the first error wins when both reject in the same
step — else the rejection of the second, else the pair of payloads when
both resolve, else pending; the completion flag matches the new state. -/
theorem C5_join_step_characterization (a : Task σ T E) (b : Task τ U E)
    (a2 : Task σ T E) (b2 : Task τ U E)
    (hA : (if a.state.is_pending then Option.map Prod.fst a.exec else some a) = some a2)
    (hB : (if b.state.is_pending then Option.map Prod.fst b.exec else some b) = some b2) :
    ∃ p, (a.join b).exec = some p ∧
      p.1.state = joinSpecResult a2.state b2.state ∧
      p.2 = !(joinSpecResult a2.state b2.state).is_pending := by
  have hstep : ∃ c, Task.joinStep (a, b) = some (c, joinSpecResult a2.state b2.state) := by
    unfold Task.joinStep
    dsimp only
    rw [hA, hB]
    cases ha2 : a2.state <;> cases hb2 : b2.state <;>
      simp [ha2, hb2, State.is_reject, State.is_resolve, State.take, State.reject,
        State.resolve, joinSpecResult]
  obtain ⟨c, hstep⟩ := hstep
  refine ⟨({ step := Task.joinStep, cst := c, state := joinSpecResult a2.state b2.state },
           !(joinSpecResult a2.state b2.state).is_pending), ?_, rfl, rfl⟩
  unfold Task.join
  rw [exec_new, hstep]

/-- C5 witness: two tasks that reject with 1 and 2 on their first step;
one step of their join settles with the first rejection. -/
theorem C5_join_step_witness :
    ∃ p, (exReject1.join exReject2).exec = some p ∧
      p.1.state = State.Reject 1 ∧ p.2 = true :=
  C5_join_step_characterization exReject1 exReject2 exReject1Stepped exReject2Stepped rfl rfl

/-- Definitional unfolding of one application of the `then` step closure. -/
theorem thenStep_apply (g : γ → T → γ × State U E) (t : Task σ T E) (gc : γ) :
    Task.thenStep g (t, gc) =
      match t.exec with
      | none => none
      | some (t1, _) =>
        if !t1.state.is_pending then
          match (t1.state.take).1.into_result with
          | none => none
          | some (Except.ok r) =>
            some (({ t1 with state := (t1.state.take).2 }, (g gc r).1), (g gc r).2)
          | some (Except.error e) =>
            some (({ t1 with state := (t1.state.take).2 }, gc), State.Reject e)
        else
          some ((t1, gc), State.Pending) :=
  rfl

/-- One `exec` of a `map` composite in terms of one `exec` of its inner
task: pending propagates, a resolution is taken and transformed, a
rejection is taken and re-raised, and a taken-terminal inner state makes
the composite panic at the unwrap. -/
theorem exec_map (t : Task σ T E) (f : T → U) (t1 : Task σ T E) (d : Bool)
    (hexec : t.exec = some (t1, d)) :
    (t.map f).exec =
      match t1.state with
      | State.Pending => some (t1.map f, false)
      | State.Resolve v =>
        some ({ step := Task.thenStep (fun u v => (u, State.Resolve (f v))),
                cst := ({ t1 with state := State.Resolved }, ()),
                state := State.Resolve (f v) }, true)
      | State.Reject e =>
        some ({ step := Task.thenStep (fun u v => (u, State.Resolve (f v))),
                cst := ({ t1 with state := State.Rejected }, ()),
                state := State.Reject e }, true)
      | State.Resolved => none
      | State.Rejected => none := by
  show (Task.new _ _).exec = _
  rw [exec_new, thenStep_apply, hexec]
  cases hst : t1.state <;>
    simp [hst, State.is_pending, State.take, State.into_result,
      Task.map, Task.thenT, Task.new]

/-- When `wait` returns a payload result within some fuel, `wait` on the
`map` composite returns within the same fuel the image of that result
under the mapping applied to the success side. -/
theorem waitF_map (f : T → U) :
    ∀ (n : Nat) (t : Task σ T E) (r : Except E T),
      t.waitF n = some (some r) →
      (t.map f).waitF n = some (some (Except.map f r)) := by
  intro n
  induction n with
  | zero => intro t r h; exact absurd h (by simp [Task.waitF])
  | succ n ih =>
    intro t r h
    unfold Task.waitF at h ⊢
    cases hexec : t.exec with
    | none => rw [hexec] at h; cases h
    | some p =>
      obtain ⟨t1, d⟩ := p
      simp only [hexec] at h
      rw [exec_map t f t1 d hexec]
      cases hst : t1.state with
      | Pending =>
        simp only [hst, State.is_pending, if_pos] at h
        simpa [State.is_pending, Task.map, Task.thenT, Task.new] using ih t1 r h
      | Resolve v =>
        simp only [hst, State.is_pending, State.into_result,
          Bool.false_eq_true, if_false, Option.some.injEq] at h
        simp [State.is_pending, State.into_result, ← h, Except.map]
      | Reject e =>
        simp only [hst, State.is_pending, State.into_result,
          Bool.false_eq_true, if_false, Option.some.injEq] at h
        simp [State.is_pending, State.into_result, ← h, Except.map]
      | Resolved =>
        simp [hst, State.is_pending, State.into_result] at h
      | Rejected =>
        simp [hst, State.is_pending, State.into_result] at h

/-- C8: the map functor laws through `wait`, for any task that settles to
a payload result within some fuel: mapping the identity does not change
the awaited outcome, and mapping twice equals mapping the composition. -/
theorem C8_map_laws (t : Task σ T E) (n : Nat) (r : Except E T)
    (f : T → U) (g : U → V) (h : t.waitF n = some (some r)) :
    (t.map id).waitF n = t.waitF n ∧
    ((t.map f).map g).waitF n = (t.map (g ∘ f)).waitF n := by
  constructor
  · rw [waitF_map id n t r h, h]
    cases r <;> rfl
  · rw [waitF_map g n (t.map f) (Except.map f r) (waitF_map f n t r h),
      waitF_map (g ∘ f) n t r h]
    cases r <;> rfl

/-- C8 witness: the task resolving to 7 settles within one step; the map
laws hold for concrete successor and doubling functions. -/
theorem C8_map_laws_witness :
    (exResolve7.map id).waitF 1 = exResolve7.waitF 1 ∧
    ((exResolve7.map Nat.succ).map (fun m => 2 * m)).waitF 1
      = (exResolve7.map ((fun m => 2 * m) ∘ Nat.succ)).waitF 1 :=
  C8_map_laws exResolve7 1 (Except.ok 7) Nat.succ (fun m => 2 * m) rfl

/-- C10: when the step closure of a pending task returns the payload-free
taken-terminal variant `Resolved` or `Rejected`, `exec` reports the task
as settled (returns true), yet `poll` returns no result and `wait`
returns `None` whatever positive fuel it is given, because `into_result`
collapses the taken-terminal variants to none. -/
theorem C10_taken_terminal (t : Task σ T E) (c : σ) (s : State T E)
    (h0 : t.state = State.Pending) (h1 : t.step t.cst = some (c, s))
    (h2 : s = State.Resolved ∨ s = State.Rejected) :
    t.exec = some ({ step := t.step, cst := c, state := s }, true) ∧
    t.poll = some ({ step := t.step, cst := c, state := s }, none) ∧
    ∀ n, t.waitF (n + 1) = some none := by
  have hexec : t.exec = some ({ step := t.step, cst := c, state := s }, true) := by
    unfold Task.exec
    rw [h0]
    simp [State.is_pending, h1]
    rcases h2 with rfl | rfl <;> rfl
  refine ⟨hexec, ?_, ?_⟩
  · unfold Task.poll
    rw [hexec]
    rcases h2 with rfl | rfl <;> rfl
  · intro n
    unfold Task.waitF
    rw [hexec]
    rcases h2 with rfl | rfl <;> rfl

/-- C10 witness: the task whose closure returns `Resolved` directly is
reported settled by `exec`, while `poll` and `wait` produce no result. -/
theorem C10_taken_terminal_witness :
    exResolvedNow.exec
      = some ({ step := exResolvedNow.step, cst := (), state := State.Resolved }, true) ∧
    exResolvedNow.poll
      = some ({ step := exResolvedNow.step, cst := (), state := State.Resolved }, none) ∧
    exResolvedNow.waitF 1 = some none :=
  ⟨(C10_taken_terminal exResolvedNow () State.Resolved rfl rfl (Or.inl rfl)).1,
   (C10_taken_terminal exResolvedNow () State.Resolved rfl rfl (Or.inl rfl)).2.1,
   (C10_taken_terminal exResolvedNow () State.Resolved rfl rfl (Or.inl rfl)).2.2 0⟩

end Theorems

end TaskKit
